import Mathlib

/-!
# recs4m: scheduled stream recorder (src/main.go)

A shallow embedding of the scheduling core of `main.go`:

* `NextStartTime` (lines 38-60), the occurrence calculator;
* the scan loop of `main` (lines 466-511), one tick of which is `tick`;
* `asyncRecord` (lines 385-464), the capture task.

## Conventions

* An instant (`time.Time`) is an `Int`: nanoseconds since the Unix epoch, on the wall clock.
  The instants the program compares never carry a monotonic reading on both sides
  (`Truncate` strips it), so `Sub` is a wall-clock difference.
* A `time.Duration` is an `Int` number of nanoseconds. Arithmetic the program performs on
  `Duration` and `int` values wraps to 64 bits (`wrap64`); `Time.Sub` saturates.
* The process runs in one zone (`time.Local` is set to Asia/Tokyo, 32400 seconds east of UTC
  at every instant since 1951). `NextStartTime` takes the zone offset in seconds as the
  parameter `offset` and treats `AddDate(0, 0, n)` as `n` times 24 hours.
* `NextStartTimeIn` is `NextStartTime` on the 64-bit quantities of package `time`, in a
  `Location` that is a parameter: the seconds of `AddDate` wrap, the zone offset is looked up
  at each instant, and the loop is run on fuel. `NextStartTimeIn_fixedZone` shows that in a
  fixed zone, for a `DayOfWeek` from 0 to 6, it returns the instant `NextStartTime` computes.
* Every `time.Now()` the code reads is an explicit input.
-/

namespace Recs4m

/-! ## The parts of package `time` the program uses -/

/-- The constant `time.Second`, in nanoseconds. -/
def Second : Int := 1000000000

/-- The constant `time.Minute`. -/
def Minute : Int := 60 * Second

/-- The constant `time.Hour`. -/
def Hour : Int := 60 * Minute

/-- The smallest `time.Duration`, `-2^63` nanoseconds. -/
def minDuration : Int := -9223372036854775808

/-- The largest `time.Duration`, `2^63 - 1` nanoseconds. -/
def maxDuration : Int := 9223372036854775807

/-- Two's complement wrap of an integer to 64 bits (Go `int`, `int64`, `time.Duration`
and `time.Weekday` arithmetic). -/
def wrap64 (x : Int) : Int :=
  (x + 9223372036854775808) % 18446744073709551616 - 9223372036854775808

/-- Seconds from the zero `time.Time` (1 January of year 1, UTC) to the Unix epoch. -/
def unixToInternal : Int := 62135596800

/-- The method `Time.Add`. -/
def timeAdd (t d : Int) : Int := t + d

/-- The method `Time.Sub`: the difference `t - u`, saturated to the range of `Duration`. -/
def timeSub (t u : Int) : Int :=
  if t - u < minDuration then minDuration
  else if maxDuration < t - u then maxDuration
  else t - u

/-- The method `Time.Truncate`: round `t` down to a multiple of `d` since the zero time;
`t` itself when `d` is not positive. -/
def timeTruncate (t d : Int) : Int :=
  if d ≤ 0 then t else t - (t + unixToInternal * Second) % d

/-- The method `Time.Weekday` in the zone `offset` seconds east of UTC: Sunday is 0.
The Unix epoch was a Thursday (4). -/
def timeWeekday (offset t : Int) : Int :=
  ((t + offset * Second) / (24 * Hour) + 4) % 7

/-- The call `t.AddDate(0, 0, days)` in a fixed zone. -/
def timeAddDate (t days : Int) : Int := t + days * (24 * Hour)

/-- The pause `time.Sleep(d)` makes: a negative or zero duration returns immediately. -/
def timeSleep (d : Int) : Int := if d ≤ 0 then 0 else d

/-! ## Data model (lines 24-36) -/

/-- The struct `Reservation`. `StartTime` is in minutes since local midnight, `Duration`
is the integer the form handler parsed with `strconv.Atoi`. -/
structure Reservation where
  ID : String
  Title : String
  DayOfWeek : Int
  StartTime : Int
  Duration : Int
  Everyweek : Bool
deriving DecidableEq, Repr

/-! ## NextStartTime (lines 38-60) -/

/-- The loop of lines 55-57: `for t.Sub(now) <= 0 { t = t.AddDate(0, 0, 7) }`.
Each iteration moves `t` seven days forward, so `now + 1 - t` decreases. -/
def addWeeks (now t : Int) : Int :=
  if _h : timeSub t now ≤ 0 then addWeeks now (timeAddDate t 7) else t
termination_by (now + 1 - t).toNat
decreasing_by
  simp only [timeSub, minDuration, maxDuration, timeAddDate, Hour, Minute, Second] at *
  split_ifs at * <;> omega

/-- Today's candidate of lines 42-46: local midnight of `now` plus `StartTime` minutes. -/
def candidate (offset now : Int) (resv : Reservation) : Int :=
  let t := timeAdd now (wrap64 (offset * Second))
  let t := timeTruncate t (24 * Hour)
  let t := timeAdd t (wrap64 (wrap64 (-offset) * Second))
  timeAdd t (wrap64 (resv.StartTime * Minute))

/-- The day offset of lines 48-51: `t.Weekday() - time.Weekday(resv.DayOfWeek)`, plus 7 when
negative. -/
def addition (offset t : Int) (resv : Reservation) : Int :=
  let a := wrap64 (timeWeekday offset t - resv.DayOfWeek)
  if a < 0 then wrap64 (a + 7) else a

/-- The function `NextStartTime`, with `time.Now()` and the zone offset as inputs. -/
def NextStartTime (offset now : Int) (resv : Reservation) : Int :=
  let t := candidate offset now resv
  let t := timeAddDate t (addition offset t resv)
  addWeeks now t

/-! ## NextStartTime on the 64-bit quantities of package `time` -/

/-- The lower sentinel `alpha` of package `time`: the smallest `int64`. -/
def alpha : Int := -9223372036854775808

/-- The upper sentinel `omega` of package `time`: the largest `int64`. -/
def omega : Int := 9223372036854775807

/-- A `time.Location` as the time arithmetic consults it: `lookup u` is the result of
`Location.lookup` at the Unix second `u`: the offset in effect (seconds east of UTC) and the
Unix seconds `start` and `end` between which it is in effect. -/
structure Location where
  lookup : Int → Int × Int × Int

/-- The location `time.FixedZone(name, offset)` (line 91). -/
def FixedZone (offset : Int) : Location :=
  ⟨fun _ => (offset, alpha, omega)⟩

/-- The location `time.LoadLocation("Asia/Tokyo")` (line 89) as the tz database describes it
(release 2018f and later): local mean time until the end of 1887, then Japan standard time,
with daylight saving time in the summers of 1948 to 1951. -/
def asiaTokyo : Location :=
  ⟨fun u =>
    if u < -2587712400 then (33539, alpha, -2587712400)
    else if u < -683802000 then (32400, -2587712400, -683802000)
    else if u < -672310800 then (36000, -683802000, -672310800)
    else if u < -654771600 then (32400, -672310800, -654771600)
    else if u < -640861200 then (36000, -654771600, -640861200)
    else if u < -620298000 then (32400, -640861200, -620298000)
    else if u < -609411600 then (36000, -620298000, -609411600)
    else if u < -588848400 then (32400, -609411600, -588848400)
    else if u < -577962000 then (36000, -588848400, -577962000)
    else (32400, -577962000, omega)⟩

/-- The Unix second of an instant (`Time.unixSec`). -/
def unixSec (t : Int) : Int := t / 1000000000

/-- The nanoseconds within the second of an instant (`Time.nsec`). -/
def nsec (t : Int) : Int := t % 1000000000

/-- The constant `internalToAbsolute`: seconds from the absolute epoch (1 January of year
-292277022399, a Monday) to the zero time. -/
def internalToAbsolute : Int := 9223371966579724800

/-- The offset `Time.Zone` returns for an instant. -/
def timeZone (loc : Location) (t : Int) : Int := (loc.lookup (unixSec t)).1

/-- The method `Time.abs`: the local wall clock of an instant in seconds since the absolute
epoch, as a `uint64`. -/
def timeAbs (loc : Location) (t : Int) : Int :=
  (unixSec t + timeZone loc t + (unixToInternal + internalToAbsolute)) % 18446744073709551616

/-- The method `Time.Weekday` in a location: Sunday is 0. -/
def weekdayIn (loc : Location) (t : Int) : Int :=
  ((timeAbs loc t + 86400) % 18446744073709551616 % 604800) / 86400

/-- The zone offset `time.Date` settles on for a wall clock given as Unix seconds: the
offset in effect at that second, or, when the wall clock less that offset falls outside the
period in which the offset is in effect, the offset in effect there. -/
def dateOffset (loc : Location) (unix : Int) : Int :=
  let r := loc.lookup unix
  if r.1 ≠ 0 then
    let utc := wrap64 (unix - r.1)
    if utc < r.2.1 ∨ r.2.2 ≤ utc then (loc.lookup utc).1 else r.1
  else 0

/-- The call `t.AddDate(0, 0, days)`: `time.Date` rebuilds the instant from the wall clock of
`t` with `days` added to the day of the month. The day count, the seconds since the absolute
epoch and the Unix seconds are 64-bit quantities and wrap. -/
def addDateIn (loc : Location) (t days : Int) : Int :=
  let abs := (timeAbs loc t + 86400 * days) % 18446744073709551616
  let unix := wrap64 (abs - (unixToInternal + internalToAbsolute))
  let unix := wrap64 (unix - dateOffset loc unix)
  (wrap64 (unix + unixToInternal) - unixToInternal) * 1000000000 + nsec t

/-- The loop of lines 55-57 run for at most `fuel` tests of its condition: `none` when the
loop is still running after them. -/
def addWeeksIn (loc : Location) (now : Int) : Nat → Int → Option Int
  | 0, _ => none
  | fuel + 1, t =>
    if timeSub t now ≤ 0 then addWeeksIn loc now fuel (addDateIn loc t 7) else some t

/-- Today's candidate of lines 39-46 in a location. -/
def candidateIn (loc : Location) (now : Int) (resv : Reservation) : Int :=
  let offset := timeZone loc now
  let t := timeAdd now (wrap64 (offset * Second))
  let t := timeTruncate t (24 * Hour)
  let t := timeAdd t (wrap64 (wrap64 (-offset) * Second))
  timeAdd t (wrap64 (resv.StartTime * Minute))

/-- The day offset of lines 48-51 in a location. -/
def additionIn (loc : Location) (t : Int) (resv : Reservation) : Int :=
  let a := wrap64 (weekdayIn loc t - resv.DayOfWeek)
  if a < 0 then wrap64 (a + 7) else a

/-- The function `NextStartTime` in a location, with `time.Now()` as an input and its loop
run for at most `fuel` tests of the condition. -/
def NextStartTimeIn (loc : Location) (fuel : Nat) (now : Int) (resv : Reservation) :
    Option Int :=
  let t := candidateIn loc now resv
  let t := addDateIn loc t (additionIn loc t resv)
  addWeeksIn loc now fuel t

/-- The seconds of an instant since the zero time fit in an `int64`. -/
def Representable (t : Int) : Prop :=
  -9223372036854775808 ≤ unixSec t + unixToInternal ∧
    unixSec t + unixToInternal ≤ 9223372036854775807

/-- Every offset of a location is at most one day. -/
def BoundedZone (loc : Location) : Prop :=
  ∀ u, -86400 ≤ (loc.lookup u).1 ∧ (loc.lookup u).1 ≤ 86400

/-- An instant within `2^62` seconds of the Unix epoch: there `Time.Add` does not reach the
ends of the `int64` seconds of a `Time`. -/
def InRange (now : Int) : Prop :=
  -4611686018427387904 ≤ unixSec now ∧ unixSec now ≤ 4611686018427387904

/-! ## The reservations bucket and the dedup map -/

/-- One key/value pair of the bucket `reservations`. `value` is what `json.Unmarshal` makes
of the stored bytes: `none` when decoding fails. -/
structure Record where
  key : String
  value : Option Reservation
deriving DecidableEq, Repr

/-- The call `b.Delete(key)` on the bucket. -/
def bucketDelete (store : List Record) (key : String) : List Record :=
  store.filter (fun r => decide (r.key ≠ key))

/-- The call `recording.Load(id)` on the `sync.Map`: whether the key is present. -/
def recordingLoad (recording : List String) (id : String) : Bool :=
  decide (id ∈ recording)

/-- The call `recording.Store(id, true)`. -/
def recordingStore (recording : List String) (id : String) : List String :=
  id :: recording

/-- The call `recording.Delete(id)`. -/
def recordingDelete (recording : List String) (id : String) : List String :=
  recording.filter (fun x => decide (x ≠ id))

/-! ## asyncRecord (lines 385-464) -/

/-- The outcome of `http.Get`: an error, or a response with its status code. -/
inductive HttpResult where
  | error
  | response (status : Int)
deriving DecidableEq, Repr

/-- The step at which a capture task set `retErr`. -/
inductive Failure where
  | httpGet
  | statusCode (status : Int)
  | tempFile
  | read
  | write
  | rename
  | upload
deriving DecidableEq, Repr

/-- The messages passed to `addNewLog`, by format string. -/
inductive LogMessage where
  | launched
  | recordingStarted (title : String) (start : Int)
  | failed (title : String) (start : Int) (reason : Failure)
  | success (title : String) (start : Int)
deriving DecidableEq, Repr

/-- A message built from the format `Failed: ...`. -/
def LogMessage.isFailed : LogMessage → Bool
  | .failed _ _ _ => true
  | _ => false

/-- A message built from the format `Successfully recorded and uploaded: ...`. -/
def LogMessage.isSuccess : LogMessage → Bool
  | .success _ _ => true
  | _ => false

/-- A terminal entry: the failure entry or the success entry. -/
def LogMessage.isTerminal (m : LogMessage) : Bool :=
  m.isFailed || m.isSuccess

/-- One iteration of the read loop as the outside world decides it: the buffer contents and
the count `n` after `resp.Body.Read(buf)`, whether the read returned an error, the clock read
by the skip test (line 430), the clock read by the stop test (line 434), and whether
`fp.Write` returned an error. -/
structure ReadEvent where
  buf : List Nat
  n : Nat
  readErr : Bool
  now1 : Int
  now2 : Int
  writeErr : Bool
deriving DecidableEq, Repr

/-- How the read loop leaves the listed iterations, with the bytes written to the temporary
file so far: `stopped` is the `break` of line 435, `failed` a `return` of line 427 or 441,
`reading` means the loop is still reading after the last listed iteration. -/
inductive LoopOutcome where
  | stopped (written : List Nat)
  | failed (reason : Failure) (written : List Nat)
  | reading (written : List Nat)
deriving DecidableEq, Repr

/-- The bytes the completed calls of `fp.Write` have put in the temporary file when the loop
is left. -/
def LoopOutcome.written : LoopOutcome → List Nat
  | .stopped w => w
  | .failed _ w => w
  | .reading w => w

/-- The read loop of lines 421-443. `duration` is `resv.Duration`, which line 434 converts
with `time.Duration(resv.Duration)`. -/
def readLoop (startTime duration : Int) : List ReadEvent → List Nat → LoopOutcome
  | [], written => .reading written
  | e :: rest, written =>
    if e.readErr then .failed .read written
    else if timeSub e.now1 (timeAdd startTime (10 * Second)) < 0 then
      readLoop startTime duration rest written
    else if 0 ≤ timeSub e.now2 (timeAdd startTime duration) then .stopped written
    else if e.writeErr then .failed .write written
    else readLoop startTime duration rest (written ++ e.buf.take e.n)

/-- The outcomes of the external steps of one capture task: the clock read by line 395,
`http.Get`, the random suffix `ioutil.TempFile` chose (`none` when it failed), the
iterations of the read loop, `os.Rename`, and the upload script. -/
structure Env where
  sleepNow : Int
  http : HttpResult
  tempSuffix : Option String
  reads : List ReadEvent
  renameErr : Bool
  uploadErr : Bool
deriving Repr

/-- The name of the file `ioutil.TempFile("/tmp", "recs4m")` creates, as `fp.Name()`
returns it: the directory joined with the pattern and a random suffix. -/
def tempFileName (suffix : String) : String :=
  "/tmp" ++ "/" ++ "recs4m" ++ suffix

/-- The argument of `time.Sleep` in line 395. -/
def sleepArg (now startTime : Int) : Int :=
  timeSub (timeAdd now (30 * Second)) startTime

/-- The two paths passed to `os.Rename` in line 448. -/
def renameArgs (name : String) : String × String :=
  ("/tmp" ++ name, "/tmp" ++ name ++ ".mp3")

/-- The arguments after the script in `exec.Command` (line 455): artifact path, title and
occurrence instant. -/
def uploadArgs (name : String) (resv : Reservation) (startTime : Int) :
    String × String × Int :=
  ("/tmp" ++ name ++ ".mp3", resv.Title, startTime)

/-- What the body of `asyncRecord` has done when it returns: `retErr`, the messages logged,
the bytes written to the temporary file, and the calls made to `os.Rename` and to the upload
script. -/
structure Body where
  retErr : Option Failure
  log : List LogMessage
  artifact : List Nat
  renameCall : Option (String × String)
  uploadCall : Option (String × String × Int)
deriving Repr

/-- The body of `asyncRecord` from line 397 to its return; `none` when the read loop has
not left the listed iterations. -/
def asyncRecordBody (env : Env) (startTime : Int) (resv : Reservation) : Option Body :=
  let log := [LogMessage.recordingStarted resv.Title startTime]
  match env.http with
  | .error => some ⟨some .httpGet, log, [], none, none⟩
  | .response status =>
    if status ≠ 200 then some ⟨some (.statusCode status), log, [], none, none⟩
    else
      match env.tempSuffix with
      | none => some ⟨some .tempFile, log, [], none, none⟩
      | some suffix =>
        match readLoop startTime resv.Duration env.reads [] with
        | .reading _ => none
        | .failed reason written => some ⟨some reason, log, written, none, none⟩
        | .stopped written =>
          let name := tempFileName suffix
          if env.renameErr then
            some ⟨some .rename, log, written, some (renameArgs name), none⟩
          else if env.uploadErr then
            some ⟨some .upload, log, written, some (renameArgs name),
              some (uploadArgs name resv startTime)⟩
          else
            some ⟨none, log ++ [LogMessage.success resv.Title startTime], written,
              some (renameArgs name), some (uploadArgs name resv startTime)⟩

/-- What one run of `asyncRecord` leaves behind. -/
structure TaskResult where
  recording : List String
  log : List LogMessage
  slept : Int
  artifact : List Nat
  renameCall : Option (String × String)
  uploadCall : Option (String × String × Int)
deriving DecidableEq, Repr

/-- The closure `asyncRecord`: the sleep of line 395, the body, then the deferred calls in
reverse order of their `defer` statements: `recording.Delete(resv.ID)` (line 394), then the
failure entry when `retErr` is set (lines 387-393). `recording` is the dedup map when the
task returns. -/
def asyncRecord (env : Env) (startTime : Int) (resv : Reservation)
    (recording : List String) : Option TaskResult :=
  match asyncRecordBody env startTime resv with
  | none => none
  | some body =>
    let log :=
      match body.retErr with
      | some reason => body.log ++ [LogMessage.failed resv.Title startTime reason]
      | none => body.log
    some ⟨recordingDelete recording resv.ID, log,
      timeSleep (sleepArg env.sleepNow startTime), body.artifact, body.renameCall,
      body.uploadCall⟩

/-! ## The scan loop (lines 466-511) -/

/-- A spawned capture task: the arguments of `go asyncRecord(st, resv)`. -/
structure Task where
  startTime : Int
  resv : Reservation
deriving DecidableEq, Repr

/-- What one scan has changed so far: the dedup map, the slice `deletedOnce`, and the tasks
spawned. -/
structure ScanAcc where
  recording : List String
  deletedOnce : List String
  spawned : List Task
deriving DecidableEq, Repr

/-- The callback of `b.ForEach` for a record that decoded (lines 482-496): `now1` is the
clock `NextStartTime` reads, `now2` the clock of the horizon test. -/
def scanOne (offset now1 now2 : Int) (resv : Reservation) (acc : ScanAcc) : ScanAcc :=
  let st := NextStartTime offset now1 resv
  if timeSub st now2 < 2 * Minute then
    if recordingLoad acc.recording resv.ID then acc
    else
      ⟨recordingStore acc.recording resv.ID,
        if resv.Everyweek then acc.deletedOnce else acc.deletedOnce ++ [resv.ID],
        acc.spawned ++ [⟨st, resv⟩]⟩
  else acc

/-- The iteration `b.ForEach` of lines 476-497 from the `k`-th record on. The callback of
record `k` reads the clock twice, `clk (2 * k)` and `clk (2 * k + 1)`. A record that does not
decode makes the callback return the error, which ends the iteration. -/
def scanRecords (offset : Int) (clk : Nat → Int) : Nat → List Record → ScanAcc → ScanAcc
  | _, [], acc => acc
  | k, r :: rest, acc =>
    match r.value with
    | none => acc
    | some resv =>
      scanRecords offset clk (k + 1) rest
        (scanOne offset (clk (2 * k)) (clk (2 * k + 1)) resv acc)

/-- The scheduler state: the bucket, the dedup map, and the capture tasks in flight. -/
structure State where
  store : List Record
  recording : List String
  tasks : List Task
deriving DecidableEq, Repr

/-- The scan of one tick (the `db.View` of lines 472-498). -/
def scan (offset : Int) (clk : Nat → Int) (s : State) : ScanAcc :=
  scanRecords offset clk 0 s.store ⟨s.recording, [], []⟩

/-- The tasks one tick spawns. -/
def spawnedBy (offset : Int) (clk : Nat → Int) (s : State) : List Task :=
  (scan offset clk s).spawned

/-- One tick of the scan loop: the scan, then the batch delete of lines 500-510. -/
def tick (offset : Int) (clk : Nat → Int) (s : State) : State :=
  let acc := scan offset clk s
  ⟨acc.deletedOnce.foldl bucketDelete s.store, acc.recording, s.tasks ++ acc.spawned⟩

/-- A capture task in flight returns: it leaves the tasks and its deferred
`recording.Delete` runs on the dedup map. -/
def complete (s : State) (task : Task) (res : TaskResult) : State :=
  ⟨s.store, res.recording, s.tasks.erase task⟩

/-- The states the scheduler reaches from an empty dedup map with no task in flight, by scan
ticks and by completions of tasks in flight. -/
inductive Reachable (offset : Int) : State → Prop where
  | init (store : List Record) : Reachable offset ⟨store, [], []⟩
  | tick (s : State) (clk : Nat → Int) :
      Reachable offset s → Reachable offset (tick offset clk s)
  | complete (s : State) (task : Task) (env : Env) (res : TaskResult) :
      Reachable offset s → task ∈ s.tasks →
      asyncRecord env task.startTime task.resv s.recording = some res →
      Reachable offset (complete s task res)

/-- The reservation IDs of a list of tasks. -/
def taskIDs (tasks : List Task) : List String :=
  tasks.map (fun t => t.resv.ID)

/-- The dedup invariant: no two tasks in flight have the same reservation ID, and the ID of
every task in flight is in the dedup map. -/
def DedupInv (recording : List String) (tasks : List Task) : Prop :=
  (taskIDs tasks).Nodup ∧ ∀ t ∈ tasks, t.resv.ID ∈ recording

/-- The bytes `fp.Write(buf[:n])` is given in one iteration. -/
def chunk (e : ReadEvent) : List Nat := e.buf.take e.n

/-- The clock readings of a sequence of iterations, in the order the loop takes them. -/
def clockReadings : List ReadEvent → List Int
  | [] => []
  | e :: rest => e.now1 :: e.now2 :: clockReadings rest

/-- Both clock readings of the iteration lie in the window from `startTime + 10s`
(included) to `startTime + duration` (excluded). -/
def inWindow (startTime duration : Int) (e : ReadEvent) : Bool :=
  decide (startTime + 10 * Second ≤ e.now1 ∧ e.now1 < startTime + duration ∧
    startTime + 10 * Second ≤ e.now2 ∧ e.now2 < startTime + duration)

/-- The read loop was left by a `return`. -/
def LoopOutcome.isFailed : LoopOutcome → Bool
  | .failed _ _ => true
  | _ => false

/-- The iteration is the last one of the loop: its read returns an error, or its clock is
past the warm-up and either the window has ended or its write returns an error. -/
def endsLoop (startTime duration : Int) (e : ReadEvent) : Bool :=
  e.readErr ||
    (decide (startTime + 10 * Second ≤ e.now1) &&
      (decide (startTime + duration ≤ e.now2) || e.writeErr))

/-- A step of the iteration failed: its read returned an error, or its chunk was due to be
written (clock inside the window) and the write returned an error. -/
def iterationFailed (startTime duration : Int) (e : ReadEvent) : Bool :=
  e.readErr ||
    (decide (startTime + 10 * Second ≤ e.now1) && decide (e.now2 < startTime + duration) &&
      e.writeErr)

/-- Some external step of the task failed: `http.Get`, the status code, `ioutil.TempFile`,
a read or a write in the last iteration of the loop, `os.Rename`, or the upload script.
Stated on the outcomes themselves, not on what the task did with them. -/
def stepFailed (env : Env) (startTime : Int) (resv : Reservation) : Bool :=
  match env.http with
  | .error => true
  | .response status =>
    decide (status ≠ 200) || env.tempSuffix.isNone ||
    (env.reads.find? (endsLoop startTime resv.Duration)).any
      (iterationFailed startTime resv.Duration) ||
    env.renameErr || env.uploadErr

/-! ## A worked schedule -/

/-- Monday 1 January 2024, 09:58:45 in the zone of the process. -/
def monday0958 : Int := 1704070725000000000

/-- Monday 1 January 2024, 09:59:45 in the zone of the process. -/
def monday0959 : Int := 1704070785000000000

/-- Monday 1 January 2024, 10:00:00 in the zone of the process. -/
def monday1000 : Int := 1704070800000000000

/-- A recurring reservation: Mondays at 10:00. -/
def weekly : Reservation :=
  ⟨"2024-01-01T08:00:00+09:00123", "news", 1, 600, 3600000000000, true⟩

/-- A one-time reservation: Monday at 10:00. -/
def once : Reservation :=
  ⟨"2024-01-01T08:30:00+09:00456", "concert", 1, 600, 3600000000000, false⟩

/-- A bucket holding the two reservations under their IDs. -/
def bucket0 : List Record :=
  [⟨"2024-01-01T08:00:00+09:00123", some weekly⟩, ⟨"2024-01-01T08:30:00+09:00456", some once⟩]

/-- The scheduler before its first tick. -/
def state0 : State := ⟨bucket0, [], []⟩

/-- A task that begins at 09:58:45 and whose `http.Get` fails. -/
def getFails : Env := ⟨monday0958, .error, none, [], false, false⟩

/-- What the task spawned for `weekly` at 09:58:45 leaves behind when `http.Get` fails while
the one-time task is still in flight. -/
def getFailed : TaskResult :=
  ⟨["2024-01-01T08:30:00+09:00456"],
    [.recordingStarted "news" monday1000, .failed "news" monday1000 .httpGet], 0, [], none, none⟩

/-- Three iterations of the read loop for the occurrence of 10:00:00, at 10:00:05, 10:00:20
and 11:00:00. -/
def threeReads : List ReadEvent :=
  [⟨[1, 2, 3, 4], 4, false, monday1000 + 5 * Second, monday1000 + 5 * Second, false⟩,
    ⟨[5, 6, 7, 4], 3, false, monday1000 + 20 * Second, monday1000 + 20 * Second, false⟩,
    ⟨[8, 9, 7, 4], 2, false, monday1000 + 3600 * Second, monday1000 + 3600 * Second, false⟩]

/-- A task for which every external step succeeds; `ioutil.TempFile` creates
`/tmp/recs4m123456`. -/
def allGood : Env := ⟨monday0958, .response 200, some "123456", threeReads, false, false⟩

/-- What the task of `allGood` for `weekly` leaves behind. -/
def allGoodDone : TaskResult :=
  ⟨[], [.recordingStarted "news" monday1000, .success "news" monday1000], 0, [5, 6, 7],
    some ("/tmp/tmp/recs4m123456", "/tmp/tmp/recs4m123456.mp3"),
    some ("/tmp/tmp/recs4m123456.mp3", "news", monday1000)⟩

/-- A task whose third read returns an error, after one chunk was skipped and one written. -/
def readFails : Env :=
  ⟨monday0958, .response 200, some "123456",
    [⟨[1, 2, 3, 4], 4, false, monday1000 + 5 * Second, monday1000 + 5 * Second, false⟩,
      ⟨[5, 6, 7, 4], 3, false, monday1000 + 20 * Second, monday1000 + 20 * Second, false⟩,
      ⟨[8, 9, 7, 4], 0, true, monday1000 + 30 * Second, monday1000 + 30 * Second, false⟩],
    false, false⟩

/-- What the task of `readFails` for `weekly` leaves behind. -/
def readFailed : TaskResult :=
  ⟨[], [.recordingStarted "news" monday1000, .failed "news" monday1000 .read], 0, [5, 6, 7],
    none, none⟩

/-- A task whose second write returns an error. -/
def writeFails : Env :=
  ⟨monday0958, .response 200, some "123456",
    [⟨[1, 2, 3, 4], 4, false, monday1000 + 15 * Second, monday1000 + 15 * Second, false⟩,
      ⟨[5, 6, 7, 4], 3, false, monday1000 + 20 * Second, monday1000 + 20 * Second, true⟩],
    false, false⟩

/-- What the task of `writeFails` for `weekly` leaves behind. -/
def writeFailed : TaskResult :=
  ⟨[], [.recordingStarted "news" monday1000, .failed "news" monday1000 .write], 0,
    [1, 2, 3, 4], none, none⟩

/-- A recurring reservation: Tuesdays (`DayOfWeek = 2`) at 00:01. -/
def tuesdayNight : Reservation :=
  ⟨"2024-01-01T08:45:00+09:00789", "night", 2, 1, 3600000000000, true⟩

/-- Tuesday 2 January 2024, 00:00:30 in the zone of the process. -/
def tuesday0000 : Int := 1704121230000000000

/-- Tuesday 2 January 2024, 00:01:00 in the zone of the process. -/
def tuesday0001 : Int := 1704121260000000000

/-- Wednesday 3 January 2024, 23:59:30 in the zone of the process. -/
def wednesday2359 : Int := 1704293970000000000

/-- Thursday 4 January 2024, 00:01:00 in the zone of the process. -/
def thursday0001 : Int := 1704294060000000000

/-! ## Facts about the time model -/

theorem timeSub_nonpos_iff (t u : Int) : timeSub t u ≤ 0 ↔ t ≤ u := by
  unfold timeSub minDuration maxDuration
  split_ifs <;> omega

theorem timeSub_neg_iff (t u : Int) : timeSub t u < 0 ↔ t < u := by
  unfold timeSub minDuration maxDuration
  split_ifs <;> omega

theorem timeSub_nonneg_iff (t u : Int) : 0 ≤ timeSub t u ↔ u ≤ t := by
  unfold timeSub minDuration maxDuration
  split_ifs <;> omega

/-! ## NextStartTime -/

/-- The loop of lines 55-57 ends on an instant after `now`. -/
theorem addWeeks_gt (now t : Int) : now < addWeeks now t := by
  induction t using addWeeks.induct now with
  | case1 t hc ih => rw [addWeeks, dif_pos hc]; exact ih
  | case2 t hc =>
    rw [addWeeks, dif_neg hc]
    have := (timeSub_nonpos_iff t now).not.mp hc
    omega

/-- The loop of lines 55-57 leaves an instant that is already after `now` as it is. -/
theorem addWeeks_of_lt (now t : Int) (h : now < t) : addWeeks now t = t := by
  rw [addWeeks, dif_neg]
  rw [timeSub_nonpos_iff]
  omega

/-- The result of `NextStartTime` is after the clock it read. -/
theorem NextStartTime_gt (offset now : Int) (resv : Reservation) :
    now < NextStartTime offset now resv := by
  unfold NextStartTime
  exact addWeeks_gt now _

/-- The loop of lines 55-57 adds a whole number of weeks. -/
theorem addWeeks_eq (now t : Int) : ∃ k : Nat, addWeeks now t = t + 7 * k * (24 * Hour) := by
  induction t using addWeeks.induct now with
  | case1 t hc ih =>
    obtain ⟨k, hk⟩ := ih
    refine ⟨k + 1, ?_⟩
    rw [addWeeks, dif_pos hc, hk, timeAddDate]
    push_cast
    ring
  | case2 t hc =>
    refine ⟨0, ?_⟩
    rw [addWeeks, dif_neg hc]
    simp

theorem timeWeekday_add_days (offset t n : Int) :
    timeWeekday offset (t + n * (24 * Hour)) = (timeWeekday offset t + n) % 7 := by
  simp only [timeWeekday, Hour, Minute, Second]
  omega

theorem timeWeekday_range (offset t : Int) :
    0 ≤ timeWeekday offset t ∧ timeWeekday offset t ≤ 6 := by
  simp only [timeWeekday, Hour, Minute, Second]
  omega

theorem wrap64_of_small (x : Int) (h1 : -9223372036854775808 ≤ x)
    (h2 : x ≤ 9223372036854775807) : wrap64 x = x := by
  unfold wrap64
  omega

/-- For a `DayOfWeek` from 0 to 6, the weekday of the instant `NextStartTime` returns is
twice the weekday of today's candidate minus `DayOfWeek`, modulo 7. -/
theorem NextStartTime_weekday (offset now : Int) (resv : Reservation)
    (h0 : 0 ≤ resv.DayOfWeek) (h6 : resv.DayOfWeek ≤ 6) :
    timeWeekday offset (NextStartTime offset now resv) =
      (2 * timeWeekday offset (candidate offset now resv) - resv.DayOfWeek) % 7 := by
  obtain ⟨k, hk⟩ := addWeeks_eq now
    (timeAddDate (candidate offset now resv) (addition offset (candidate offset now resv) resv))
  have hw := timeWeekday_range offset (candidate offset now resv)
  unfold NextStartTime
  simp only
  rw [hk, timeAddDate, timeWeekday_add_days, timeWeekday_add_days]
  unfold addition
  simp only
  rw [wrap64_of_small _ (by omega) (by omega)]
  split_ifs with hneg
  · rw [wrap64_of_small _ (by omega) (by omega)]
    omega
  · omega

/-- For a `DayOfWeek` from 0 to 6, the instant `NextStartTime` returns falls on `DayOfWeek`
exactly when today's candidate already does. -/
theorem NextStartTime_weekday_eq_iff (offset now : Int) (resv : Reservation)
    (h0 : 0 ≤ resv.DayOfWeek) (h6 : resv.DayOfWeek ≤ 6) :
    timeWeekday offset (NextStartTime offset now resv) = resv.DayOfWeek ↔
      timeWeekday offset (candidate offset now resv) = resv.DayOfWeek := by
  have hw := timeWeekday_range offset (candidate offset now resv)
  rw [NextStartTime_weekday offset now resv h0 h6]
  omega

/-! ## NextStartTime on 64-bit quantities: the loop ends -/

/-- What `AddDate(0, 0, days)` returns: the seconds since the zero time move by `days` days
and by the difference of two zone offsets, and wrap to 64 bits; the nanoseconds stay. -/
theorem addDateIn_spec (loc : Location) (hloc : BoundedZone loc) (t days : Int) :
    ∃ o1 o2 : Int, -86400 ≤ o1 ∧ o1 ≤ 86400 ∧ -86400 ≤ o2 ∧ o2 ≤ 86400 ∧
      addDateIn loc t days =
        (wrap64 (unixSec t + unixToInternal + o1 - o2 + 86400 * days) - unixToInternal)
          * 1000000000 + nsec t := by
  refine ⟨timeZone loc t, dateOffset loc (wrap64 ((timeAbs loc t + 86400 * days) %
    18446744073709551616 - (unixToInternal + internalToAbsolute))),
    (hloc _).1, (hloc _).2, ?_, ?_, ?_⟩
  · unfold dateOffset
    simp only
    split_ifs
    · exact (hloc _).1
    · exact (hloc _).1
    · omega
  · unfold dateOffset
    simp only
    split_ifs
    · exact (hloc _).2
    · exact (hloc _).2
    · omega
  · unfold addDateIn timeAbs
    simp only
    generalize dateOffset loc _ = o2
    generalize timeZone loc t = o1
    simp only [wrap64, unixToInternal, internalToAbsolute]
    omega

/-- The instant `AddDate` returns has its seconds in the range of `int64`. -/
theorem addDateIn_representable (loc : Location) (t days : Int) :
    Representable (addDateIn loc t days) := by
  unfold addDateIn Representable unixSec nsec
  simp only
  generalize wrap64 (wrap64 ((timeAbs loc t + 86400 * days) % 18446744073709551616 -
    (unixToInternal + internalToAbsolute)) - dateOffset loc _) = u
  simp only [wrap64, unixToInternal]
  omega

/-- One more week: from a representable instant not later than `2^62` seconds after the
epoch, `AddDate(0, 0, 7)` moves strictly forward. -/
theorem addDateIn_week_gt (loc : Location) (hloc : BoundedZone loc) (t : Int)
    (hR : Representable t) (hle : unixSec t ≤ 4611686018427387904) :
    t < addDateIn loc t 7 := by
  obtain ⟨o1, o2, h1, h2, h3, h4, he⟩ := addDateIn_spec loc hloc t 7
  rw [he]
  unfold Representable at hR
  unfold unixSec nsec wrap64 unixToInternal at *
  omega

/-- The loop of lines 55-57 ends, and on an instant after `now`: however far in the past the
wrapped seconds of the first `AddDate` put `t`, each further week moves it forward. -/
theorem addWeeksIn_terminates (loc : Location) (hloc : BoundedZone loc) (now : Int)
    (hnow : InRange now) :
    ∀ (n : Nat) (t : Int), Representable t → (now + 1 - t).toNat ≤ n →
      ∃ fuel r, addWeeksIn loc now fuel t = some r ∧ now < r := by
  intro n
  induction n with
  | zero =>
    intro t _ hn
    refine ⟨1, t, ?_, by omega⟩
    rw [addWeeksIn, if_neg]
    rw [timeSub_nonpos_iff]
    omega
  | succ n ih =>
    intro t hR hn
    by_cases hc : timeSub t now ≤ 0
    · have hle : t ≤ now := (timeSub_nonpos_iff t now).mp hc
      have hsec : unixSec t ≤ 4611686018427387904 := by
        have := hnow.2
        unfold unixSec at *
        omega
      have hgt := addDateIn_week_gt loc hloc t hR hsec
      obtain ⟨fuel, r, hr, hlt⟩ := ih (addDateIn loc t 7) (addDateIn_representable loc t 7)
        (by omega)
      refine ⟨fuel + 1, r, ?_, hlt⟩
      rw [addWeeksIn, if_pos hc]
      exact hr
    · refine ⟨1, t, ?_, ?_⟩
      · rw [addWeeksIn, if_neg hc]
      · have := (timeSub_nonpos_iff t now).not.mp hc
        omega

/-- More fuel does not change what the loop returns. -/
theorem addWeeksIn_mono (loc : Location) (now : Int) :
    ∀ (fuel : Nat) (t r : Int), addWeeksIn loc now fuel t = some r →
      ∀ k, fuel ≤ k → addWeeksIn loc now k t = some r := by
  intro fuel
  induction fuel with
  | zero => intro t r h; simp [addWeeksIn] at h
  | succ f ih =>
    intro t r h k hk
    obtain ⟨k, rfl⟩ : ∃ j, k = j + 1 := ⟨k - 1, by omega⟩
    rw [addWeeksIn] at h ⊢
    split_ifs at h ⊢ with hc
    · exact ih _ _ h k (by omega)
    · exact h

theorem boundedZone_asiaTokyo : BoundedZone asiaTokyo := by
  intro u
  simp only [asiaTokyo]
  split_ifs <;> decide

theorem boundedZone_fixedZone (offset : Int) (h1 : -86400 ≤ offset) (h2 : offset ≤ 86400) :
    BoundedZone (FixedZone offset) := fun _ => ⟨h1, h2⟩

/-- C1: at every current instant `now` (within `2^62` seconds of the Unix epoch, so that an
`int64` can hold the seconds of a later instant), in every location whose offsets are at most
a day (the fixed zone of line 91 and Asia/Tokyo of the tz database are such), for every
reservation (any `DayOfWeek`, any `StartTime`), `NextStartTime` terminates: some number of
tests of the loop condition suffices, no number of tests gives another result, and the
instant returned is strictly later than `now`, also as `Time.Sub` measures it. -/
theorem NextStartTime_after_now (loc : Location) (now : Int) (resv : Reservation)
    (hloc : BoundedZone loc) (hnow : InRange now) :
    ∃ r fuel, (∀ k, fuel ≤ k → NextStartTimeIn loc k now resv = some r) ∧
      (∀ k r2, NextStartTimeIn loc k now resv = some r2 → r2 = r) ∧
      now < r ∧ 0 < timeSub r now := by
  obtain ⟨fuel, r, hr, hlt⟩ := addWeeksIn_terminates loc hloc now hnow _
    (addDateIn loc (candidateIn loc now resv)
      (additionIn loc (candidateIn loc now resv) resv))
    (addDateIn_representable _ _ _) (le_refl _)
  refine ⟨r, fuel, fun k hk => ?_, fun k r2 h2 => ?_, hlt, ?_⟩
  · unfold NextStartTimeIn
    exact addWeeksIn_mono loc now fuel _ r hr k hk
  · unfold NextStartTimeIn at h2
    have ha := addWeeksIn_mono loc now fuel _ r hr (max k fuel) (le_max_right _ _)
    have hb := addWeeksIn_mono loc now k _ r2 h2 (max k fuel) (le_max_left _ _)
    rw [ha] at hb
    exact (Option.some.inj hb).symm
  · exact not_le.mp (fun hc => absurd ((timeSub_nonpos_iff _ _).mp hc) (not_le.mpr hlt))

/-! ## NextStartTime on 64-bit quantities: evaluations -/

/-- At Monday 1 January 2024 09:00:00 in Asia/Tokyo, for `DayOfWeek = -2^62` and
`StartTime = 600`: the day offset is `1 + 2^62`, its seconds wrap to those of one day, and
the result is Tuesday 2 January 2024 10:00:00. -/
theorem NextStartTimeIn_wrapped_days :
    additionIn asiaTokyo
        (candidateIn asiaTokyo 1704067200000000000
          ⟨"id", "title", -4611686018427387904, 600, 60, true⟩)
        ⟨"id", "title", -4611686018427387904, 600, 60, true⟩ = 4611686018427387905
    ∧ NextStartTimeIn asiaTokyo 1 1704067200000000000
        ⟨"id", "title", -4611686018427387904, 600, 60, true⟩ = some 1704157200000000000 := by
  decide

/-- At Monday 1 January 2024 09:00:00 in Asia/Tokyo, for `StartTime = -80000000` and
`DayOfWeek = -55555`: the candidate is 23 November 1871 10:58:59 local mean time (01:40:00
UTC), a Thursday; 55559 days later on the wall clock it is 4 January 2024 10:58:59 Japan
standard time. -/
theorem NextStartTimeIn_local_mean_time :
    candidateIn asiaTokyo 1704067200000000000 ⟨"id", "title", -55555, -80000000, 60, true⟩
      = -3095965200000000000
    ∧ timeZone asiaTokyo (-3095965200000000000) = 33539
    ∧ weekdayIn asiaTokyo (-3095965200000000000) = 4
    ∧ NextStartTimeIn asiaTokyo 1 1704067200000000000
        ⟨"id", "title", -55555, -80000000, 60, true⟩ = some 1704333539000000000 := by
  decide

/-- At the failing input of C2 the 64-bit computation in Asia/Tokyo returns the same Sunday. -/
theorem NextStartTimeIn_tuesday :
    NextStartTimeIn asiaTokyo 1 1704067200000000000 ⟨"id", "title", 2, 600, 60, true⟩
      = some 1704589200000000000 := by
  decide

/-! ## NextStartTime on 64-bit quantities: agreement in a fixed zone -/

theorem dateOffset_fixedZone (offset unix : Int) :
    dateOffset (FixedZone offset) unix = offset := by
  unfold dateOffset FixedZone
  simp only
  split_ifs <;> omega

theorem weekdayIn_fixedZone (offset t : Int) (h1 : -86400 ≤ offset) (h2 : offset ≤ 86400)
    (ht1 : -4700000000000000000 ≤ unixSec t) (ht2 : unixSec t ≤ 4700000000000000000) :
    weekdayIn (FixedZone offset) t = timeWeekday offset t := by
  unfold weekdayIn timeAbs timeZone FixedZone timeWeekday unixSec at *
  simp only [unixToInternal, internalToAbsolute, Hour, Minute, Second] at *
  omega

theorem addDateIn_fixedZone (offset t days : Int) (h1 : -86400 ≤ offset) (h2 : offset ≤ 86400)
    (ht1 : -4700000000000000000 ≤ unixSec t) (ht2 : unixSec t ≤ 4700000000000000000)
    (hd1 : -7 ≤ days) (hd2 : days ≤ 7) :
    addDateIn (FixedZone offset) t days = timeAddDate t days := by
  unfold addDateIn
  simp only [dateOffset_fixedZone]
  unfold timeAbs timeZone FixedZone timeAddDate unixSec nsec at *
  simp only [wrap64, unixToInternal, internalToAbsolute, Hour, Minute, Second] at *
  omega

theorem addWeeksIn_fixedZone (offset now : Int) (h1 : -86400 ≤ offset) (h2 : offset ≤ 86400)
    (hnow : InRange now) (t : Int) (ht : -4700000000000000000 ≤ unixSec t) :
    ∃ fuel, addWeeksIn (FixedZone offset) now fuel t = some (addWeeks now t) := by
  induction t using addWeeks.induct now with
  | case1 t hc ih =>
    have hle : t ≤ now := (timeSub_nonpos_iff t now).mp hc
    have hsec : unixSec t ≤ 4700000000000000000 := by
      have := hnow.2
      unfold unixSec at *
      omega
    have hnext : -4700000000000000000 ≤ unixSec (timeAddDate t 7) := by
      unfold timeAddDate unixSec at *
      simp only [Hour, Minute, Second]
      omega
    obtain ⟨fuel, hf⟩ := ih hnext
    refine ⟨fuel + 1, ?_⟩
    rw [addWeeksIn, if_pos hc, addDateIn_fixedZone offset t 7 h1 h2 ht hsec (by omega)
      (by omega), hf, addWeeks.eq_1 now t, dif_pos hc]
  | case2 t hc =>
    refine ⟨1, ?_⟩
    rw [addWeeksIn, if_neg hc, addWeeks, dif_neg hc]

theorem candidate_unixSec (offset now : Int) (resv : Reservation) (hnow : InRange now) :
    -4650000000000000000 ≤ unixSec (candidate offset now resv) ∧
      unixSec (candidate offset now resv) ≤ 4650000000000000000 := by
  unfold InRange at hnow
  unfold candidate timeAdd timeTruncate unixSec at *
  simp only [wrap64, unixToInternal, Hour, Minute, Second] at *
  split_ifs <;> omega

theorem addition_range (offset t : Int) (resv : Reservation)
    (h0 : 0 ≤ resv.DayOfWeek) (h6 : resv.DayOfWeek ≤ 6) :
    0 ≤ addition offset t resv ∧ addition offset t resv ≤ 6 := by
  have hw := timeWeekday_range offset t
  unfold addition
  simp only
  rw [wrap64_of_small _ (by omega) (by omega)]
  split_ifs with hneg
  · rw [wrap64_of_small _ (by omega) (by omega)]
    omega
  · omega

/-- In a fixed zone, for a `DayOfWeek` from 0 to 6 and any `StartTime`, no 64-bit quantity of
`AddDate` wraps and `NextStartTimeIn` returns the instant `NextStartTime` computes. -/
theorem NextStartTimeIn_fixedZone (offset now : Int) (resv : Reservation)
    (h1 : -86400 ≤ offset) (h2 : offset ≤ 86400) (hnow : InRange now)
    (h0 : 0 ≤ resv.DayOfWeek) (h6 : resv.DayOfWeek ≤ 6) :
    ∃ fuel, ∀ k, fuel ≤ k →
      NextStartTimeIn (FixedZone offset) k now resv = some (NextStartTime offset now resv) := by
  have hc := candidate_unixSec offset now resv hnow
  have ha := addition_range offset (candidate offset now resv) resv h0 h6
  have hcand : candidateIn (FixedZone offset) now resv = candidate offset now resv := rfl
  have hadd : additionIn (FixedZone offset) (candidate offset now resv) resv =
      addition offset (candidate offset now resv) resv := by
    unfold additionIn addition
    rw [weekdayIn_fixedZone offset _ h1 h2 (by omega) (by omega)]
  have hdate : addDateIn (FixedZone offset) (candidate offset now resv)
      (addition offset (candidate offset now resv) resv) =
      timeAddDate (candidate offset now resv)
        (addition offset (candidate offset now resv) resv) :=
    addDateIn_fixedZone offset _ _ h1 h2 (by omega) (by omega) (by omega) (by omega)
  have hlow : -4700000000000000000 ≤ unixSec (timeAddDate (candidate offset now resv)
      (addition offset (candidate offset now resv) resv)) := by
    have := hc.1
    unfold timeAddDate unixSec at *
    simp only [Hour, Minute, Second]
    omega
  obtain ⟨fuel, hf⟩ := addWeeksIn_fixedZone offset now h1 h2 hnow _ hlow
  refine ⟨fuel, fun k hk => ?_⟩
  unfold NextStartTimeIn NextStartTime
  simp only [hcand, hadd, hdate]
  exact addWeeksIn_mono _ now fuel _ _ hf k hk

/-! ## NextStartTime at a failing input -/

/-- C2, evaluated at a failing input: in the zone of the process (32400 seconds east of UTC),
at Monday 1 January 2024 09:00:00 local time, for a reservation on Tuesday (`DayOfWeek = 2`)
at 10:00 (`StartTime = 600`), line 48 computes `1 - 2`, line 50 makes it 6, and
`NextStartTime` returns Sunday 7 January 2024 10:00:00, whose weekday is 0, not 2. -/
theorem NextStartTime_weekday_mismatch :
    NextStartTime 32400 1704067200000000000 ⟨"id", "title", 2, 600, 60, true⟩
      = 1704589200000000000
    ∧ timeWeekday 32400
        (NextStartTime 32400 1704067200000000000 ⟨"id", "title", 2, 600, 60, true⟩) = 0
    ∧ addition 32400 (candidate 32400 1704067200000000000 ⟨"id", "title", 2, 600, 60, true⟩)
        ⟨"id", "title", 2, 600, 60, true⟩ = 6
    ∧ (2 - timeWeekday 32400
        (candidate 32400 1704067200000000000 ⟨"id", "title", 2, 600, 60, true⟩)) % 7 = 1 := by
  have h : NextStartTime 32400 1704067200000000000 ⟨"id", "title", 2, 600, 60, true⟩
      = 1704589200000000000 := by
    unfold NextStartTime
    rw [addWeeks_of_lt] <;> decide
  refine ⟨h, ?_, by decide, by decide⟩
  rw [h]
  decide

/-! ## asyncRecord: the sleep and the paths -/

/-- C5, evaluated at two failing inputs. A task that begins 100 seconds before its
occurrence instant passes `-70s` to `time.Sleep` and does not sleep at all, where sleeping
until 30 seconds before the occurrence would take 70 seconds; a task that begins 10 seconds
before its occurrence instant sleeps 20 seconds, where no sleep is due. -/
theorem asyncRecord_sleep_reversed :
    sleepArg 1704067200000000000 (1704067200000000000 + 100 * Second) = -70 * Second
    ∧ (asyncRecord ⟨1704067200000000000, .error, none, [], false, false⟩
        (1704067200000000000 + 100 * Second) ⟨"id", "title", 1, 600, 60, true⟩ []).map
        TaskResult.slept = some 0
    ∧ (1704067200000000000 + 100 * Second) - 30 * Second - 1704067200000000000 = 70 * Second
    ∧ (asyncRecord ⟨1704067200000000000, .error, none, [], false, false⟩
        (1704067200000000000 + 10 * Second) ⟨"id", "title", 1, 600, 60, true⟩ []).map
        TaskResult.slept = some (20 * Second)
    ∧ (1704067200000000000 + 10 * Second) - 30 * Second - 1704067200000000000 < 0 := by
  decide

/-- C9, evaluated at a failing input. For the temporary file `/tmp/recs4m123456`, a task
whose stream, file creation and read loop all succeed passes `/tmp/tmp/recs4m123456` to
`os.Rename` as the source and `/tmp/tmp/recs4m123456.mp3` as the destination and as the
artifact path of the upload script: line 448 puts `/tmp` in front of a name that already
starts with it. -/
theorem asyncRecord_rename_paths :
    allGood.tempSuffix.map tempFileName = some "/tmp/recs4m123456"
    ∧ (asyncRecord allGood monday1000 weekly []).map TaskResult.artifact = some [5, 6, 7]
    ∧ (asyncRecord allGood monday1000 weekly []).map TaskResult.renameCall
      = some (some ("/tmp/tmp/recs4m123456", "/tmp/tmp/recs4m123456.mp3"))
    ∧ (asyncRecord allGood monday1000 weekly []).map TaskResult.uploadCall
      = some (some ("/tmp/tmp/recs4m123456.mp3", "news", monday1000)) := by
  decide

/-! ## The dedup invariant -/

theorem taskIDs_append (l₁ l₂ : List Task) : taskIDs (l₁ ++ l₂) = taskIDs l₁ ++ taskIDs l₂ := by
  simp [taskIDs]

theorem mem_taskIDs {id : String} {l : List Task} :
    id ∈ taskIDs l ↔ ∃ t ∈ l, t.resv.ID = id := by
  simp [taskIDs]

/-- The callback of the scan either leaves everything as it is, or (inside the horizon, with
the ID not in the dedup map) stores the ID, spawns one task, and notes a one-time reservation
for deletion. -/
theorem scanOne_cases (offset now1 now2 : Int) (resv : Reservation) (acc : ScanAcc) :
    scanOne offset now1 now2 resv acc = acc ∨
    (resv.ID ∉ acc.recording ∧
      timeSub (NextStartTime offset now1 resv) now2 < 2 * Minute ∧
      scanOne offset now1 now2 resv acc =
        ⟨recordingStore acc.recording resv.ID,
          if resv.Everyweek then acc.deletedOnce else acc.deletedOnce ++ [resv.ID],
          acc.spawned ++ [⟨NextStartTime offset now1 resv, resv⟩]⟩) := by
  unfold scanOne
  simp only
  by_cases h1 : timeSub (NextStartTime offset now1 resv) now2 < 2 * Minute
  · by_cases h2 : recordingLoad acc.recording resv.ID = true
    · left; rw [if_pos h1, if_pos h2]
    · right
      refine ⟨by simpa [recordingLoad] using h2, h1, ?_⟩
      rw [if_pos h1, if_neg h2]
  · left; rw [if_neg h1]

/-- The callback of the scan keeps the dedup invariant of the tasks in flight together with
the tasks spawned so far. -/
theorem scanOne_dedupInv (offset now1 now2 : Int) (resv : Reservation) (base : List Task)
    (acc : ScanAcc) (h : DedupInv acc.recording (base ++ acc.spawned)) :
    DedupInv (scanOne offset now1 now2 resv acc).recording
      (base ++ (scanOne offset now1 now2 resv acc).spawned) := by
  rcases scanOne_cases offset now1 now2 resv acc with he | ⟨hnot, -, he⟩
  · rw [he]; exact h
  · rw [he]
    obtain ⟨hnd, hrec⟩ := h
    constructor
    · rw [← List.append_assoc, taskIDs_append]
      refine List.Nodup.append hnd (by simp [taskIDs]) ?_
      intro id hid hid2
      have : id = resv.ID := by simpa [taskIDs] using hid2
      subst this
      obtain ⟨t, ht, hte⟩ := mem_taskIDs.mp hid
      exact hnot (hte ▸ hrec t ht)
    · intro t ht
      rw [← List.append_assoc, List.mem_append] at ht
      rcases ht with ht | ht
      · exact List.mem_cons_of_mem _ (hrec t ht)
      · have : t = ⟨NextStartTime offset now1 resv, resv⟩ := by simpa using ht
        subst this
        exact List.mem_cons_self _ _

/-- The scan keeps the dedup invariant. -/
theorem scanRecords_dedupInv (offset : Int) (clk : Nat → Int) (base : List Task) :
    ∀ (rs : List Record) (k : Nat) (acc : ScanAcc),
      DedupInv acc.recording (base ++ acc.spawned) →
      DedupInv (scanRecords offset clk k rs acc).recording
        (base ++ (scanRecords offset clk k rs acc).spawned) := by
  intro rs
  induction rs with
  | nil => intro k acc h; simpa [scanRecords] using h
  | cons r rest ih =>
    intro k acc h
    unfold scanRecords
    cases hv : r.value with
    | none => simpa using h
    | some resv =>
      simp only
      exact ih _ _ (scanOne_dedupInv offset _ _ resv base acc h)

/-- A tick keeps the dedup invariant. -/
theorem tick_dedupInv (offset : Int) (clk : Nat → Int) (s : State)
    (h : DedupInv s.recording s.tasks) :
    DedupInv (tick offset clk s).recording (tick offset clk s).tasks := by
  have := scanRecords_dedupInv offset clk s.tasks s.store 0 ⟨s.recording, [], []⟩
    (by simpa using h)
  simpa [tick, scan] using this

/-- Whatever the external steps do, a returning task has deleted its ID from the dedup map. -/
theorem asyncRecord_recording (env : Env) (startTime : Int) (resv : Reservation)
    (recording : List String) (res : TaskResult)
    (h : asyncRecord env startTime resv recording = some res) :
    res.recording = recordingDelete recording resv.ID := by
  unfold asyncRecord at h
  cases hb : asyncRecordBody env startTime resv with
  | none => simp [hb] at h
  | some body =>
    simp only [hb, Option.some.injEq] at h
    rw [← h]

/-- In a list of tasks with distinct IDs, the tasks left after erasing one have other IDs. -/
theorem ne_of_mem_erase_of_nodup {tasks : List Task} {task t : Task}
    (hnd : (taskIDs tasks).Nodup) (hmem : task ∈ tasks) (ht : t ∈ tasks.erase task) :
    t.resv.ID ≠ task.resv.ID := by
  have hperm := List.perm_cons_erase hmem
  have hnd2 : (taskIDs (task :: tasks.erase task)).Nodup :=
    (List.Perm.nodup_iff (List.Perm.map _ hperm)).mp hnd
  simp only [taskIDs, List.map_cons, List.nodup_cons, List.mem_map, not_exists, not_and]
    at hnd2
  exact hnd2.1 t ht

/-- The completion of a task in flight keeps the dedup invariant. -/
theorem complete_dedupInv (s : State) (task : Task) (env : Env) (res : TaskResult)
    (h : DedupInv s.recording s.tasks) (hmem : task ∈ s.tasks)
    (hres : asyncRecord env task.startTime task.resv s.recording = some res) :
    DedupInv (complete s task res).recording (complete s task res).tasks := by
  obtain ⟨hnd, hrec⟩ := h
  have hr := asyncRecord_recording env _ _ _ _ hres
  constructor
  · exact List.Nodup.sublist (List.Sublist.map _ (List.erase_sublist _ _)) hnd
  · intro t ht
    have hne := ne_of_mem_erase_of_nodup hnd hmem ht
    have hin := hrec t (List.mem_of_mem_erase ht)
    simp only [complete, hr, recordingDelete, List.mem_filter, decide_eq_true_eq]
    exact ⟨hin, hne⟩

/-- C3: in every state the scheduler reaches from an empty dedup map with no task in flight,
by scan ticks and by completions of capture tasks (each of which deletes its ID from the dedup
map), no two tasks in flight have the same reservation ID and the ID of every task in flight
is in the dedup map. -/
theorem reachable_dedup (offset : Int) (s : State) (h : Reachable offset s) :
    (taskIDs s.tasks).Nodup ∧ ∀ t ∈ s.tasks, t.resv.ID ∈ s.recording := by
  induction h with
  | init store => exact ⟨by simp [taskIDs], by simp⟩
  | tick s clk _ ih => exact tick_dedupInv offset clk s ih
  | complete s task env res _ hmem hres ih => exact complete_dedupInv s task env res ih hmem hres

/-! ## The batch delete of one tick -/

/-- Deleting a list of keys one after the other keeps the records whose key is not listed. -/
theorem foldl_bucketDelete (ids : List String) :
    ∀ store : List Record,
      ids.foldl bucketDelete store = store.filter (fun r => decide (r.key ∉ ids)) := by
  induction ids with
  | nil => intro store; simp
  | cons id ids ih =>
    intro store
    rw [List.foldl_cons, ih, bucketDelete, List.filter_filter]
    apply List.filter_congr
    intro r _
    simp only [List.mem_cons, not_or]
    by_cases h1 : r.key = id <;> by_cases h2 : r.key ∈ ids <;> simp [h1, h2]

/-- The callback of the scan notes for deletion exactly the one-time reservations it spawns. -/
theorem scanOne_deletedOnce (offset now1 now2 : Int) (resv : Reservation) (acc : ScanAcc)
    (h : acc.deletedOnce = taskIDs (acc.spawned.filter (fun t => !t.resv.Everyweek))) :
    (scanOne offset now1 now2 resv acc).deletedOnce =
      taskIDs ((scanOne offset now1 now2 resv acc).spawned.filter
        (fun t => !t.resv.Everyweek)) := by
  rcases scanOne_cases offset now1 now2 resv acc with he | ⟨-, -, he⟩
  · rw [he]; exact h
  · rw [he]
    simp only [List.filter_append, taskIDs_append]
    cases hw : resv.Everyweek <;> simp [h, hw, taskIDs]

/-- After a scan, `deletedOnce` lists the IDs of the one-time reservations among the tasks
spawned, in order. -/
theorem scanRecords_deletedOnce (offset : Int) (clk : Nat → Int) :
    ∀ (rs : List Record) (k : Nat) (acc : ScanAcc),
      acc.deletedOnce = taskIDs (acc.spawned.filter (fun t => !t.resv.Everyweek)) →
      (scanRecords offset clk k rs acc).deletedOnce =
        taskIDs ((scanRecords offset clk k rs acc).spawned.filter
          (fun t => !t.resv.Everyweek)) := by
  intro rs
  induction rs with
  | nil => intro k acc h; simpa [scanRecords] using h
  | cons r rest ih =>
    intro k acc h
    unfold scanRecords
    cases hv : r.value with
    | none => simpa using h
    | some resv =>
      simp only
      exact ih _ _ (scanOne_deletedOnce offset _ _ resv acc h)

/-- Every task a scan spawns carries the reservation of a record it visited. -/
theorem scanRecords_spawned_mem (offset : Int) (clk : Nat → Int) :
    ∀ (rs : List Record) (k : Nat) (acc : ScanAcc) (t : Task),
      t ∈ (scanRecords offset clk k rs acc).spawned →
      t ∈ acc.spawned ∨ ∃ r ∈ rs, r.value = some t.resv := by
  intro rs
  induction rs with
  | nil => intro k acc t h; left; simpa [scanRecords] using h
  | cons r rest ih =>
    intro k acc t h
    unfold scanRecords at h
    cases hv : r.value with
    | none => left; simpa [hv] using h
    | some resv =>
      simp only [hv] at h
      rcases ih _ _ t h with h1 | ⟨r2, hr2, hval⟩
      · rcases scanOne_cases offset (clk (2 * k)) (clk (2 * k + 1)) resv acc
          with he | ⟨-, -, he⟩
        · rw [he] at h1; exact Or.inl h1
        · rw [he] at h1
          simp only [List.mem_append, List.mem_singleton] at h1
          rcases h1 with h1 | h1
          · exact Or.inl h1
          · right
            refine ⟨r, List.mem_cons_self _ _, ?_⟩
            rw [hv, h1]
      · exact Or.inr ⟨r2, List.mem_cons_of_mem _ hr2, hval⟩

/-- C4: for every state whose records all decode and are stored under their ID, with distinct
keys (the bucket is a map), whatever the dedup map holds and whichever tasks are in flight,
the bucket after one tick is the bucket before it without the records of the one-time
reservations (`Everyweek = false`) for which this tick spawned a task: those are absent,
every other record is present, unchanged and in place. -/
theorem tick_store (offset : Int) (clk : Nat → Int) (s : State)
    (hdec : ∀ r ∈ s.store, ∃ resv, r.value = some resv ∧ r.key = resv.ID)
    (hkeys : (s.store.map Record.key).Nodup) :
    (tick offset clk s).store =
      s.store.filter (fun r =>
        !(spawnedBy offset clk s).any
          (fun t => decide (r.value = some t.resv) && !t.resv.Everyweek)) := by
  have hdel := scanRecords_deletedOnce offset clk s.store 0 ⟨s.recording, [], []⟩
    (by simp [taskIDs])
  unfold tick spawnedBy
  simp only
  rw [foldl_bucketDelete]
  apply List.filter_congr
  intro r hr
  obtain ⟨resv, hval, hkey⟩ := hdec r hr
  have hiff : r.key ∈ (scan offset clk s).deletedOnce ↔
      ∃ t ∈ (scan offset clk s).spawned,
        (decide (r.value = some t.resv) && !t.resv.Everyweek) = true := by
    unfold scan
    rw [hdel, mem_taskIDs]
    constructor
    · rintro ⟨t, ht, hid⟩
      rw [List.mem_filter] at ht
      refine ⟨t, ht.1, ?_⟩
      rcases scanRecords_spawned_mem offset clk s.store 0 _ t ht.1 with h0 | ⟨r2, hr2, hv2⟩
      · simp at h0
      · obtain ⟨resv2, hval2, hkey2⟩ := hdec r2 hr2
        have hres : resv2 = t.resv := by
          rw [hval2] at hv2
          exact Option.some.inj hv2
        have hk : r2.key = r.key := by rw [hkey2, hres, hid]
        have hrr : r2 = r := List.inj_on_of_nodup_map hkeys hr2 hr hk
        rw [← hrr, hv2]
        simpa using ht.2
    · rintro ⟨t, ht, hc⟩
      simp only [Bool.and_eq_true, decide_eq_true_eq] at hc
      refine ⟨t, List.mem_filter.mpr ⟨ht, hc.2⟩, ?_⟩
      rw [hval] at hc
      rw [hkey, Option.some.inj hc.1]
  by_cases hm : r.key ∈ (scan offset clk s).deletedOnce
  · have := hiff.mp hm
    rw [← List.any_eq_true] at this
    simp [hm, this]
  · have : ¬ ((scan offset clk s).spawned.any
        (fun t => decide (r.value = some t.resv) && !t.resv.Everyweek) = true) := by
      rw [List.any_eq_true]
      exact fun h => hm (hiff.mpr h)
    simp only [Bool.not_eq_true] at this
    simp [hm, this]

/-! ## The read loop -/

theorem mem_clockReadings {e : ReadEvent} {reads : List ReadEvent} (h : e ∈ reads) :
    e.now1 ∈ clockReadings reads ∧ e.now2 ∈ clockReadings reads := by
  induction reads with
  | nil => simp at h
  | cons a rest ih =>
    rcases List.mem_cons.mp h with h1 | h1
    · subst h1; simp [clockReadings]
    · have := ih h1
      simp [clockReadings, this]

/-- With a non-decreasing clock, the two readings of each iteration are in order. -/
theorem now1_le_now2_of_pairwise {reads : List ReadEvent}
    (h : (clockReadings reads).Pairwise (fun a b => a ≤ b)) :
    ∀ e ∈ reads, e.now1 ≤ e.now2 := by
  induction reads with
  | nil => simp
  | cons a rest ih =>
    simp only [clockReadings, List.pairwise_cons, List.mem_cons] at h
    intro e he
    rcases List.mem_cons.mp he with h1 | h1
    · subst h1; exact h.1 _ (Or.inl rfl)
    · exact ih h.2.2 e h1

/-- When the loop stops, it has written, after what was there, the chunks of the iterations
whose clock readings lie in the window. -/
theorem readLoop_stopped (startTime duration : Int) :
    ∀ (reads : List ReadEvent) (acc w : List Nat),
      (clockReadings reads).Pairwise (fun a b => a ≤ b) →
      readLoop startTime duration reads acc = .stopped w →
      w = acc ++ ((reads.filter (inWindow startTime duration)).map chunk).flatten := by
  intro reads
  induction reads with
  | nil => intro acc w _ h; simp [readLoop] at h
  | cons e rest ih =>
    intro acc w hmono h
    simp only [clockReadings, List.pairwise_cons, List.mem_cons] at hmono
    obtain ⟨h1, h2, hrest⟩ := hmono
    have h12 : e.now1 ≤ e.now2 := h1 _ (Or.inl rfl)
    unfold readLoop at h
    split_ifs at h with hr hskip hstop hw
    · rw [timeSub_neg_iff, timeAdd] at hskip
      have hnot : inWindow startTime duration e = false := by
        simp only [inWindow, decide_eq_false_iff_not]
        omega
      rw [List.filter_cons_of_neg (by simp [hnot])]
      exact ih acc w hrest h
    · rw [timeSub_nonneg_iff, timeAdd] at hstop
      have hnot : ∀ x ∈ e :: rest, ¬ (inWindow startTime duration x = true) := by
        intro x hx
        simp only [inWindow, decide_eq_true_eq]
        rcases List.mem_cons.mp hx with hx | hx
        · subst hx; omega
        · have := h2 _ (mem_clockReadings hx).2
          omega
      rw [List.filter_eq_nil_iff.mpr hnot]
      simp only [LoopOutcome.stopped.injEq] at h
      simp [h]
    · rw [timeSub_neg_iff, timeAdd] at hskip
      rw [timeSub_nonneg_iff, timeAdd] at hstop
      have hin : inWindow startTime duration e = true := by
        simp only [inWindow, decide_eq_true_eq]
        omega
      rw [List.filter_cons_of_pos hin]
      have := ih _ w hrest h
      simp only [List.map_cons, List.flatten_cons, chunk] at this ⊢
      rw [this, List.append_assoc]

/-- With a duration of at most ten seconds, no iteration whose two clock readings are in
order writes to the temporary file. -/
theorem readLoop_written_of_short (startTime duration : Int)
    (hd : duration ≤ 10 * Second) :
    ∀ (reads : List ReadEvent) (acc : List Nat),
      (∀ e ∈ reads, e.now1 ≤ e.now2) →
      (readLoop startTime duration reads acc).written = acc := by
  intro reads
  induction reads with
  | nil => intro acc _; simp [readLoop, LoopOutcome.written]
  | cons e rest ih =>
    intro acc hmono
    have h12 : e.now1 ≤ e.now2 := hmono e (List.mem_cons_self _ _)
    have hrest : ∀ x ∈ rest, x.now1 ≤ x.now2 := fun x hx => hmono x (List.mem_cons_of_mem _ hx)
    unfold readLoop
    split_ifs with hr hskip hstop hw
    · rfl
    · exact ih acc hrest
    · rfl
    · rfl
    · exfalso
      rw [timeSub_neg_iff, timeAdd] at hskip
      rw [timeSub_nonneg_iff, timeAdd] at hstop
      omega

/-- C6: for every sequence of iterations of the read loop with non-decreasing clock readings
on which the loop stops normally (the `break` of line 435, so every read and write before it
succeeded), the bytes written to the temporary file are the in-order concatenation of exactly
the chunks `buf[:n]` of the iterations whose clock readings `t` satisfy
`startTime + 10s <= t < startTime + Duration`, with `Duration` the raw integer of the
reservation as the loop uses it: chunks read before `startTime + 10s` and chunks read at or
after `startTime + Duration` are not in it. -/
theorem readLoop_window (startTime : Int) (resv : Reservation) (reads : List ReadEvent)
    (w : List Nat)
    (hmono : (clockReadings reads).Pairwise (fun a b => a ≤ b))
    (hstop : readLoop startTime resv.Duration reads [] = .stopped w) :
    w = ((reads.filter (inWindow startTime resv.Duration)).map
      (fun e => e.buf.take e.n)).flatten := by
  have := readLoop_stopped startTime resv.Duration reads [] w hmono hstop
  simpa [chunk] using this

/-- C10: for every reservation whose stored `Duration` is at most 10,000,000,000 (ten seconds
as a raw nanosecond count) and every sequence of iterations of the read loop with
non-decreasing clock readings, the loop writes nothing: however it is left (the `break`, a
read error, or still reading), the temporary file is empty. -/
theorem readLoop_short_duration_empty (startTime : Int) (resv : Reservation)
    (reads : List ReadEvent)
    (hd : resv.Duration ≤ 10000000000)
    (hmono : (clockReadings reads).Pairwise (fun a b => a ≤ b)) :
    (readLoop startTime resv.Duration reads []).written = [] := by
  have hd2 : resv.Duration ≤ 10 * Second := by
    unfold Second
    omega
  exact readLoop_written_of_short startTime resv.Duration hd2 reads []
    (now1_le_now2_of_pairwise hmono)

/-! ## The terminal log entry of a task -/

/-- The read loop is left by a `return` exactly when the first iteration that ends it is one
in which a read or a write failed. -/
theorem readLoop_isFailed (startTime duration : Int) :
    ∀ (reads : List ReadEvent) (acc : List Nat),
      (readLoop startTime duration reads acc).isFailed =
        (reads.find? (endsLoop startTime duration)).any
          (iterationFailed startTime duration) := by
  intro reads
  induction reads with
  | nil => intro acc; simp [readLoop, LoopOutcome.isFailed]
  | cons e rest ih =>
    intro acc
    unfold readLoop
    by_cases hr : e.readErr = true
    · simp [hr, LoopOutcome.isFailed, endsLoop, iterationFailed]
    · simp only [hr, if_false, Bool.false_eq_true]
      by_cases hskip : timeSub e.now1 (timeAdd startTime (10 * Second)) < 0
      · have h1 : ¬ (startTime + 10 * Second ≤ e.now1) := by
          rw [timeSub_neg_iff, timeAdd] at hskip
          omega
        rw [if_pos hskip, ih acc]
        simp [List.find?_cons, endsLoop, hr, h1]
      · have h1 : startTime + 10 * Second ≤ e.now1 := by
          rw [timeSub_neg_iff, timeAdd] at hskip
          omega
        rw [if_neg hskip]
        by_cases hstop : 0 ≤ timeSub e.now2 (timeAdd startTime duration)
        · have h2 : startTime + duration ≤ e.now2 := by
            rw [timeSub_nonneg_iff, timeAdd] at hstop
            exact hstop
          have h3 : ¬ (e.now2 < startTime + duration) := by omega
          rw [if_pos hstop]
          simp [List.find?_cons, endsLoop, iterationFailed, LoopOutcome.isFailed, hr, h1,
            h2, h3]
        · have h2 : ¬ (startTime + duration ≤ e.now2) := by
            rw [timeSub_nonneg_iff, timeAdd] at hstop
            exact hstop
          have h3 : e.now2 < startTime + duration := by omega
          rw [if_neg hstop]
          by_cases hw : e.writeErr = true
          · simp [List.find?_cons, endsLoop, iterationFailed, LoopOutcome.isFailed, hr, h1,
              h2, h3, hw]
          · rw [if_neg hw, ih]
            simp [List.find?_cons, endsLoop, hr, h1, h2, hw]

/-- The log of a task that set `retErr` has one terminal entry, the failure entry. -/
theorem terminal_of_failed (title : String) (start : Int) (reason : Failure) (f : Bool)
    (hf : f = true) :
    ∃ m, ([LogMessage.recordingStarted title start] ++
        [LogMessage.failed title start reason]).filter LogMessage.isTerminal = [m] ∧
      (m.isFailed = true ↔ f = true) ∧ (m.isSuccess = true ↔ f = false) :=
  ⟨LogMessage.failed title start reason,
    by simp [LogMessage.isTerminal, LogMessage.isFailed, LogMessage.isSuccess],
    by simp [LogMessage.isFailed, hf], by simp [LogMessage.isSuccess, hf]⟩

/-- The log of a task that did not set `retErr` has one terminal entry, the success entry. -/
theorem terminal_of_success (title : String) (start : Int) (f : Bool) (hf : f = false) :
    ∃ m, ([LogMessage.recordingStarted title start] ++
        [LogMessage.success title start]).filter LogMessage.isTerminal = [m] ∧
      (m.isFailed = true ↔ f = true) ∧ (m.isSuccess = true ↔ f = false) :=
  ⟨LogMessage.success title start,
    by simp [LogMessage.isTerminal, LogMessage.isFailed, LogMessage.isSuccess],
    by simp [LogMessage.isFailed, hf], by simp [LogMessage.isSuccess, hf]⟩

/-- C7: for every combination of outcomes of the external steps of a capture task (the
result of `http.Get`, the status code, the creation of the temporary file, any sequence of
read results and write results, the rename, the upload script), when the task returns its
reservation ID has been deleted from the dedup map and exactly one terminal entry has been
logged: a failure entry if and only if some step failed (`stepFailed`, stated on the outcomes
alone), and otherwise the success entry. -/
theorem asyncRecord_terminal (env : Env) (startTime : Int) (resv : Reservation)
    (recording : List String) (res : TaskResult)
    (h : asyncRecord env startTime resv recording = some res) :
    res.recording = recordingDelete recording resv.ID ∧ resv.ID ∉ res.recording ∧
    ∃ m, res.log.filter LogMessage.isTerminal = [m] ∧
      (m.isFailed = true ↔ stepFailed env startTime resv = true) ∧
      (m.isSuccess = true ↔ stepFailed env startTime resv = false) := by
  have hrec := asyncRecord_recording env startTime resv recording res h
  refine ⟨hrec, by simp [hrec, recordingDelete], ?_⟩
  unfold asyncRecord asyncRecordBody at h
  cases hh : env.http with
  | error =>
    simp only [hh, Option.some.injEq] at h
    subst h
    exact terminal_of_failed _ _ _ _ (by simp [stepFailed, hh])
  | response status =>
    simp only [hh] at h
    by_cases hs : status = 200
    · simp only [hs, ne_eq, not_true_eq_false, if_false] at h
      cases ht : env.tempSuffix with
      | none =>
        simp only [ht, Option.some.injEq] at h
        subst h
        exact terminal_of_failed _ _ _ _ (by simp [stepFailed, hh, ht])
      | some suffix =>
        simp only [ht] at h
        cases hl : readLoop startTime resv.Duration env.reads [] with
        | reading w => simp [hl] at h
        | failed reason w =>
          simp only [hl, Option.some.injEq] at h
          subst h
          have hfail := readLoop_isFailed startTime resv.Duration env.reads []
          rw [hl] at hfail
          exact terminal_of_failed _ _ _ _
            (by simp [stepFailed, hh, ← hfail, LoopOutcome.isFailed])
        | stopped w =>
          simp only [hl] at h
          have hfail := readLoop_isFailed startTime resv.Duration env.reads []
          rw [hl] at hfail
          cases hre : env.renameErr with
          | true =>
            simp only [hre, if_true, Option.some.injEq] at h
            subst h
            exact terminal_of_failed _ _ _ _ (by simp [stepFailed, hh, hre])
          | false =>
            cases hu : env.uploadErr with
            | true =>
              simp only [hre, hu, if_true, Bool.false_eq_true, if_false, Option.some.injEq] at h
              subst h
              exact terminal_of_failed _ _ _ _ (by simp [stepFailed, hh, hu])
            | false =>
              simp only [hre, hu, Bool.false_eq_true, if_false, Option.some.injEq] at h
              subst h
              exact terminal_of_success _ _ _
                (by simp [stepFailed, hh, hs, ht, ← hfail, LoopOutcome.isFailed, hre, hu])
    · simp only [hs, ne_eq, not_false_eq_true, if_true, Option.some.injEq] at h
      subst h
      exact terminal_of_failed _ _ _ _ (by simp [stepFailed, hh, hs])

/-! ## Which occurrences a tick spawns -/

/-- Every task a scan spawns is for the instant `NextStartTime` returned on one of the clock
readings of the scan, and its ID was not in the dedup map when the scan began. -/
theorem scanRecords_spawned_new (offset : Int) (clk : Nat → Int) :
    ∀ (rs : List Record) (k : Nat) (acc : ScanAcc) (t : Task),
      t ∈ (scanRecords offset clk k rs acc).spawned →
      t ∈ acc.spawned ∨
        ((∃ j, t.startTime = NextStartTime offset (clk j) t.resv) ∧
          t.resv.ID ∉ acc.recording) := by
  intro rs
  induction rs with
  | nil => intro k acc t h; left; simpa [scanRecords] using h
  | cons r rest ih =>
    intro k acc t h
    unfold scanRecords at h
    cases hv : r.value with
    | none => left; simpa [hv] using h
    | some resv =>
      simp only [hv] at h
      rcases scanOne_cases offset (clk (2 * k)) (clk (2 * k + 1)) resv acc
        with he | ⟨hnot, -, he⟩
      · rw [he] at h
        exact ih _ _ t h
      · rcases ih _ _ t h with h1 | ⟨hj, hid⟩
        · rw [he] at h1
          simp only [List.mem_append, List.mem_singleton] at h1
          rcases h1 with h1 | h1
          · exact Or.inl h1
          · right
            subst h1
            exact ⟨⟨2 * k, rfl⟩, hnot⟩
        · right
          rw [he] at hid
          exact ⟨hj, fun hmem => hid (List.mem_cons_of_mem _ hmem)⟩

/-! ## The worked schedule, evaluated -/

theorem NextStartTime_weekly_0958 : NextStartTime 32400 monday0958 weekly = monday1000 := by
  unfold NextStartTime
  rw [addWeeks_of_lt] <;> decide

theorem NextStartTime_once_0958 : NextStartTime 32400 monday0958 once = monday1000 := by
  unfold NextStartTime
  rw [addWeeks_of_lt] <;> decide

theorem NextStartTime_weekly_0959 : NextStartTime 32400 monday0959 weekly = monday1000 := by
  unfold NextStartTime
  rw [addWeeks_of_lt] <;> decide

/-- The scan of 09:58:45 spawns a task for each of the two reservations, both for 10:00:00,
and notes the one-time reservation for deletion. -/
theorem scan_state0 :
    scan 32400 (fun _ => monday0958) state0 =
      ⟨["2024-01-01T08:30:00+09:00456", "2024-01-01T08:00:00+09:00123"],
        ["2024-01-01T08:30:00+09:00456"], [⟨monday1000, weekly⟩, ⟨monday1000, once⟩]⟩ := by
  have h1 : timeSub monday1000 monday0958 < 2 * Minute := by decide
  simp [scan, state0, bucket0, scanRecords, scanOne, NextStartTime_weekly_0958,
    NextStartTime_once_0958, recordingLoad, recordingStore, h1]
  decide

/-- The tick of 09:58:45 leaves the recurring reservation in the bucket, both IDs in the
dedup map and both tasks in flight. -/
theorem tick_state0 :
    tick 32400 (fun _ => monday0958) state0 =
      ⟨[⟨"2024-01-01T08:00:00+09:00123", some weekly⟩],
        ["2024-01-01T08:30:00+09:00456", "2024-01-01T08:00:00+09:00123"],
        [⟨monday1000, weekly⟩, ⟨monday1000, once⟩]⟩ := by
  unfold tick
  rw [scan_state0]
  decide

/-- The state after the task of the recurring reservation has failed at `http.Get`. -/
theorem complete_state0 :
    complete (tick 32400 (fun _ => monday0958) state0) ⟨monday1000, weekly⟩ getFailed =
      ⟨[⟨"2024-01-01T08:00:00+09:00123", some weekly⟩],
        ["2024-01-01T08:30:00+09:00456"], [⟨monday1000, once⟩]⟩ := by
  rw [tick_state0]
  decide

/-- The scan of 09:59:45, after the failure, spawns a task for 10:00:00 again. -/
theorem scan_after_failure :
    scan 32400 (fun _ => monday0959)
      ⟨[⟨"2024-01-01T08:00:00+09:00123", some weekly⟩],
        ["2024-01-01T08:30:00+09:00456"], [⟨monday1000, once⟩]⟩ =
      ⟨["2024-01-01T08:00:00+09:00123", "2024-01-01T08:30:00+09:00456"], [],
        [⟨monday1000, weekly⟩]⟩ := by
  have h1 : timeSub monday1000 monday0959 < 2 * Minute := by decide
  simp [scan, scanRecords, scanOne, NextStartTime_weekly_0959, recordingLoad,
    recordingStore, h1]
  decide

/-- The distance between the occurrences of one reservation follows the day offset of line
48: the reservation `tuesdayNight` has an occurrence inside the horizon on Tuesday 00:01 and
another one two days later, on Thursday 00:01. -/
theorem occurrences_two_days_apart :
    NextStartTime 32400 tuesday0000 tuesdayNight = tuesday0001
    ∧ timeSub tuesday0001 tuesday0000 < 2 * Minute
    ∧ NextStartTime 32400 wednesday2359 tuesdayNight = thursday0001
    ∧ timeSub thursday0001 wednesday2359 < 2 * Minute
    ∧ thursday0001 = timeAddDate tuesday0001 2 := by
  refine ⟨?_, by decide, ?_, by decide, by decide⟩
  · unfold NextStartTime
    rw [addWeeks_of_lt] <;> decide
  · unfold NextStartTime
    rw [addWeeks_of_lt] <;> decide

/-! ## No retry once the occurrence has passed -/

/-- C8 as stated fails: the recurring reservation `weekly` (Mondays 10:00), scanned at
09:58:45, gets a task for the occurrence of 10:00:00; the task fails at `http.Get` and deletes
its ID from the dedup map; the next scan, at 09:59:45, finds the same occurrence still inside
the horizon and the ID gone, and spawns a second task for the same reservation and the same
occurrence instant. -/
theorem retry_same_occurrence :
    spawnedBy 32400 (fun _ => monday0958) state0 =
      [⟨monday1000, weekly⟩, ⟨monday1000, once⟩]
    ∧ weekly.Everyweek = true
    ∧ asyncRecord getFails monday1000 weekly
        (tick 32400 (fun _ => monday0958) state0).recording = some getFailed
    ∧ LogMessage.failed "news" monday1000 .httpGet ∈ getFailed.log
    ∧ weekly.ID ∉ getFailed.recording
    ∧ spawnedBy 32400 (fun _ => monday0959)
        (complete (tick 32400 (fun _ => monday0958) state0) ⟨monday1000, weekly⟩ getFailed) =
      [⟨monday1000, weekly⟩] := by
  refine ⟨?_, rfl, ?_, by decide, by decide, ?_⟩
  · unfold spawnedBy
    rw [scan_state0]
  · rw [tick_state0]
    decide
  · unfold spawnedBy
    rw [complete_state0, scan_after_failure]

/-- C8, amended: a tick never spawns a task for a reservation whose ID is in the dedup map
(so not while an earlier task for it is in flight), and a tick all of whose clock readings
are at or after an occurrence instant `st` spawns only tasks for occurrence instants strictly
later than `st`: once `st` has come, a failed task for `st` is not retried. -/
theorem no_retry_after_occurrence (offset : Int) (clk : Nat → Int) (s : State) (st : Int)
    (hclk : ∀ k, st ≤ clk k) :
    (∀ task ∈ spawnedBy offset clk s, task.resv.ID ∉ s.recording) ∧
    (∀ task ∈ spawnedBy offset clk s, st < task.startTime) := by
  have key : ∀ task ∈ spawnedBy offset clk s,
      (∃ j, task.startTime = NextStartTime offset (clk j) task.resv) ∧
        task.resv.ID ∉ s.recording := by
    intro task h
    rcases scanRecords_spawned_new offset clk s.store 0 ⟨s.recording, [], []⟩ task h
      with h0 | h1
    · simp at h0
    · exact h1
  refine ⟨fun task h => (key task h).2, fun task h => ?_⟩
  obtain ⟨⟨j, hj⟩, -⟩ := key task h
  have := NextStartTime_gt offset (clk j) task.resv
  have := hclk j
  omega

/-! ## The theorems at the worked schedule -/

/-- At Monday 1 January 2024 09:00:00 in Asia/Tokyo, for `DayOfWeek = -10^15`: the wrapped
seconds of the first `AddDate` put `t` about 185 billion years before `now`, and the loop
still ends after `now`. -/
theorem NextStartTime_after_now_witness :
    BoundedZone asiaTokyo ∧ InRange 1704067200000000000 ∧
    ∃ r fuel, (∀ k, fuel ≤ k → NextStartTimeIn asiaTokyo k 1704067200000000000
        ⟨"id", "title", -1000000000000000, 600, 60, true⟩ = some r) ∧
      (∀ k r2, NextStartTimeIn asiaTokyo k 1704067200000000000
        ⟨"id", "title", -1000000000000000, 600, 60, true⟩ = some r2 → r2 = r) ∧
      1704067200000000000 < r ∧ 0 < timeSub r 1704067200000000000 :=
  ⟨boundedZone_asiaTokyo, by unfold InRange unixSec; decide,
    NextStartTime_after_now asiaTokyo 1704067200000000000
      ⟨"id", "title", -1000000000000000, 600, 60, true⟩ boundedZone_asiaTokyo
      (by unfold InRange unixSec; decide)⟩

/-- The dedup invariant in the state after the tick of 09:58:45. -/
theorem reachable_dedup_witness :
    (taskIDs (tick 32400 (fun _ => monday0958) state0).tasks).Nodup ∧
    ∀ t ∈ (tick 32400 (fun _ => monday0958) state0).tasks,
      t.resv.ID ∈ (tick 32400 (fun _ => monday0958) state0).recording :=
  reachable_dedup 32400 (tick 32400 (fun _ => monday0958) state0)
    (Reachable.tick state0 (fun _ => monday0958) (Reachable.init bucket0))

/-- The bucket after the tick of 09:58:45. -/
theorem tick_store_witness :
    (∀ r ∈ state0.store, ∃ resv, r.value = some resv ∧ r.key = resv.ID) ∧
    (state0.store.map Record.key).Nodup ∧
    (tick 32400 (fun _ => monday0958) state0).store =
      state0.store.filter (fun r =>
        !(spawnedBy 32400 (fun _ => monday0958) state0).any
          (fun t => decide (r.value = some t.resv) && !t.resv.Everyweek)) :=
  ⟨by decide, by decide,
    tick_store 32400 (fun _ => monday0958) state0 (by decide) (by decide)⟩

/-- The read loop on three iterations: the first is skipped, the second written, the third
stops the loop. -/
theorem readLoop_window_witness :
    (clockReadings threeReads).Pairwise (fun a b => a ≤ b) ∧
    readLoop monday1000 weekly.Duration threeReads [] = .stopped [5, 6, 7] ∧
    [5, 6, 7] = ((threeReads.filter (inWindow monday1000 weekly.Duration)).map
      (fun e => e.buf.take e.n)).flatten :=
  ⟨by decide, by decide,
    readLoop_window monday1000 weekly threeReads [5, 6, 7] (by decide) (by decide)⟩

/-- The read loop for a reservation whose duration was entered as 60. -/
theorem readLoop_short_duration_empty_witness :
    (readLoop monday1000
      (Reservation.mk "2024-01-01T08:00:00+09:00123" "news" 1 600 60 true).Duration
      threeReads []).written = [] :=
  readLoop_short_duration_empty monday1000
    (Reservation.mk "2024-01-01T08:00:00+09:00123" "news" 1 600 60 true) threeReads
    (by decide) (by decide)

/-- Four tasks: `http.Get` fails; the third read fails after a chunk was written; the second
write fails; every step succeeds. -/
theorem asyncRecord_terminal_witness :
    (asyncRecord getFails monday1000 weekly
        ["2024-01-01T08:30:00+09:00456", "2024-01-01T08:00:00+09:00123"] = some getFailed ∧
      stepFailed getFails monday1000 weekly = true ∧
      getFailed.recording =
        recordingDelete ["2024-01-01T08:30:00+09:00456", "2024-01-01T08:00:00+09:00123"]
          weekly.ID ∧
      weekly.ID ∉ getFailed.recording ∧
      ∃ m, getFailed.log.filter LogMessage.isTerminal = [m] ∧
        (m.isFailed = true ↔ stepFailed getFails monday1000 weekly = true) ∧
        (m.isSuccess = true ↔ stepFailed getFails monday1000 weekly = false)) ∧
    (asyncRecord readFails monday1000 weekly ["2024-01-01T08:00:00+09:00123"]
        = some readFailed ∧
      stepFailed readFails monday1000 weekly = true ∧
      readFailed.recording = recordingDelete ["2024-01-01T08:00:00+09:00123"] weekly.ID ∧
      weekly.ID ∉ readFailed.recording ∧
      ∃ m, readFailed.log.filter LogMessage.isTerminal = [m] ∧
        (m.isFailed = true ↔ stepFailed readFails monday1000 weekly = true) ∧
        (m.isSuccess = true ↔ stepFailed readFails monday1000 weekly = false)) ∧
    (asyncRecord writeFails monday1000 weekly ["2024-01-01T08:00:00+09:00123"]
        = some writeFailed ∧
      stepFailed writeFails monday1000 weekly = true ∧
      writeFailed.recording = recordingDelete ["2024-01-01T08:00:00+09:00123"] weekly.ID ∧
      weekly.ID ∉ writeFailed.recording ∧
      ∃ m, writeFailed.log.filter LogMessage.isTerminal = [m] ∧
        (m.isFailed = true ↔ stepFailed writeFails monday1000 weekly = true) ∧
        (m.isSuccess = true ↔ stepFailed writeFails monday1000 weekly = false)) ∧
    (asyncRecord allGood monday1000 weekly ["2024-01-01T08:00:00+09:00123"]
        = some allGoodDone ∧
      stepFailed allGood monday1000 weekly = false ∧
      allGoodDone.recording = recordingDelete ["2024-01-01T08:00:00+09:00123"] weekly.ID ∧
      weekly.ID ∉ allGoodDone.recording ∧
      ∃ m, allGoodDone.log.filter LogMessage.isTerminal = [m] ∧
        (m.isFailed = true ↔ stepFailed allGood monday1000 weekly = true) ∧
        (m.isSuccess = true ↔ stepFailed allGood monday1000 weekly = false)) :=
  ⟨⟨by decide, by decide,
      asyncRecord_terminal getFails monday1000 weekly
        ["2024-01-01T08:30:00+09:00456", "2024-01-01T08:00:00+09:00123"] getFailed
        (by decide)⟩,
    ⟨by decide, by decide,
      asyncRecord_terminal readFails monday1000 weekly ["2024-01-01T08:00:00+09:00123"]
        readFailed (by decide)⟩,
    ⟨by decide, by decide,
      asyncRecord_terminal writeFails monday1000 weekly ["2024-01-01T08:00:00+09:00123"]
        writeFailed (by decide)⟩,
    ⟨by decide, by decide,
      asyncRecord_terminal allGood monday1000 weekly ["2024-01-01T08:00:00+09:00123"]
        allGoodDone (by decide)⟩⟩

/-- A tick at 10:00:00, after the failure. -/
theorem no_retry_after_occurrence_witness :
    (∀ k : Nat, monday1000 ≤ (fun _ => monday1000) k) ∧
    (∀ task ∈ spawnedBy 32400 (fun _ => monday1000)
        (complete (tick 32400 (fun _ => monday0958) state0) ⟨monday1000, weekly⟩ getFailed),
      task.resv.ID ∉
        (complete (tick 32400 (fun _ => monday0958) state0) ⟨monday1000, weekly⟩
          getFailed).recording) ∧
    (∀ task ∈ spawnedBy 32400 (fun _ => monday1000)
        (complete (tick 32400 (fun _ => monday0958) state0) ⟨monday1000, weekly⟩ getFailed),
      monday1000 < task.startTime) :=
  ⟨fun _ => le_refl _,
    no_retry_after_occurrence 32400 (fun _ => monday1000)
      (complete (tick 32400 (fun _ => monday0958) state0) ⟨monday1000, weekly⟩ getFailed)
      monday1000 (fun _ => le_refl _)⟩

end Recs4m
